import Mathlib

/-!
Verification development for the citus-manager pod-event reconciliation engine
(src/manager/manager.py).

The development shallowly embeds the parts of the program the claims are about:
  * the readiness gate `check_pod_readiness` together with the retry decorator
    it installs on `request_pod_readiness`;
  * the in-memory topology state (`citus_master_nodes`, `citus_worker_nodes`,
    `citus_coordinator_nodes`, `init_provision`) and the six event handlers
    (`add_master`, `remove_master`, `add_coordinator`, `remove_coordinator`,
    `add_worker`, `remove_worker`);
  * the dispatch performed by the `run` loop over the `pod_interactions`
    table, including the catch of `ReadinessError` at the loop boundary.

External collaborators (the Kubernetes status API, `DBHandler`, the
provisioning `ConfigMonitor`) are modelled as oracles and as an emitted trace
of `Call` values: the embedding records every SQL query and every provisioning
invocation the handlers perform, in order, instead of executing them.
-/

namespace Citus

/-! ## Readiness gate (`Manager.check_pod_readiness`)

One invocation of the inner `request_pod_readiness` performs one call of the
platform status API.  The outcome of a single call is modelled by
`ApiCallResult`: the API may answer with the pod status (a list of per
container readiness booleans), raise `client.rest.ApiException` (an HTTP error
response, among them 404 when the pod is missing), or fail at the transport
level (API unreachable), which surfaces as an exception that is not an
`ApiException`.  The decorator `retrying.retry(wait_fixed=5000,
retry_on_exception=lambda x: not isinstance(x, client.rest.ApiException))`
re-runs the function, after a fixed 5000 ms pause, exactly when the raised
exception is not an `ApiException`; otherwise the exception propagates and
`check_pod_readiness` wraps it into `ReadinessError`.  The gate is run against
a finite script of successive call outcomes. -/

inductive ApiCallResult where
  /-- The API answered; the pod reports one readiness flag per container. -/
  | status (containers_ready : List Bool)
  /-- `client.rest.ApiException` with a 404 body: the pod does not exist. -/
  | notFound
  /-- `client.rest.ApiException`: the API answered with an error response. -/
  | serverError
  /-- Transport-level failure (API unreachable): not an `ApiException`. -/
  | unreachable
  deriving DecidableEq

inductive PyExc where
  | apiException (notFound : Bool)
  | assertionError
  | connectionError
  deriving DecidableEq

/-- One run of the body of `request_pod_readiness`: call the status API, then
`assert all(readiness)`. -/
def request_pod_readiness : ApiCallResult → Except PyExc Unit
  | ApiCallResult.status rs =>
      if rs.all (fun b => b) then Except.ok () else Except.error PyExc.assertionError
  | ApiCallResult.notFound => Except.error (PyExc.apiException true)
  | ApiCallResult.serverError => Except.error (PyExc.apiException false)
  | ApiCallResult.unreachable => Except.error PyExc.connectionError

def is_api_exception : PyExc → Bool
  | PyExc.apiException _ => true
  | _ => false

/-- The `retry_on_exception` predicate of the decorator:
`lambda x: not isinstance(x, client.rest.ApiException)`. -/
def retry_on_exception (e : PyExc) : Bool := !(is_api_exception e)

/-- The `wait_fixed` argument of the decorator, in milliseconds. -/
def wait_fixed : Nat := 5000

/-- The retry loop installed by the decorator, run against a finite script of
call outcomes.  Returns the final outcome (`none` when the script is exhausted
while the loop is still retrying) together with the total number of
milliseconds spent waiting between attempts. -/
def retry_call : List ApiCallResult → Option (Except PyExc Unit) × Nat
  | [] => (none, 0)
  | c :: rest =>
    match request_pod_readiness c with
    | Except.ok () => (some (Except.ok ()), 0)
    | Except.error e =>
      if retry_on_exception e then
        let r := retry_call rest
        (r.1, wait_fixed + r.2)
      else (some (Except.error e), 0)

inductive GateResult where
  /-- `request_pod_readiness` returned: the pod is ready. -/
  | ok
  /-- A `ReadinessError` is raised to the caller. -/
  | readinessError
  /-- The outcome script ran out while the gate was still retrying. -/
  | stillRetrying
  /-- An exception escaped that the `except` clause does not catch. -/
  | uncaught
  deriving DecidableEq

/-- `Manager.check_pod_readiness`: run the decorated `request_pod_readiness`;
catch `client.rest.ApiException` and re-raise it as `ReadinessError`. -/
def check_pod_readiness (calls : List ApiCallResult) : GateResult :=
  match (retry_call calls).1 with
  | none => GateResult.stillRetrying
  | some (Except.ok ()) => GateResult.ok
  | some (Except.error (PyExc.apiException _)) => GateResult.readinessError
  | some (Except.error _) => GateResult.uncaught

/-- The failure classification asserted by the claim (not by the code): the
retryable class is the API being unreachable or erroring, every other failure
is terminal.  Used only to compare the claimed behaviour with the embedded
code. -/
def claim_retryable : ApiCallResult → Bool
  | ApiCallResult.unreachable => true
  | ApiCallResult.serverError => true
  | _ => false

/-- The gate as the claim describes it, over the same outcome scripts. -/
def check_pod_readiness_claim : List ApiCallResult → GateResult
  | [] => GateResult.stillRetrying
  | c :: rest =>
    match request_pod_readiness c with
    | Except.ok () => GateResult.ok
    | Except.error _ =>
      if claim_retryable c then check_pod_readiness_claim rest
      else GateResult.readinessError

/-! ## Topology state and event handlers

The Python `set` objects are embedded as duplicate-free `List String` values:
`set.add` appends the element when it is absent, `set.discard` filters it out.
Every query issued through `DBHandler.execute_query` and every call into the
provisioning `ConfigMonitor` is recorded as a `Call` in the order the handler
performs it.  A handler returns a `StepResult`: the state as it stands when
the handler finishes or when a `ReadinessError` escapes it (Python keeps the
mutations made before the raise), the emitted calls, and whether a
`ReadinessError` propagated out of the handler. -/

/-- The configuration surface read from `parse_env_vars` that the embedded
code consumes. -/
structure Conf where
  master_label : String
  coordinator_label : String
  worker_label : String
  master_service : String
  coordinator_service : String
  worker_service : String
  minimum_workers : Nat
  pg_port : Nat
  deriving DecidableEq

/-- The ambient collaborators of a handler invocation: the configuration, the
host-name resolution of `DBHandler.get_host_name`, and the outcome of the
readiness gate for each pod at this moment (`ready p = true` when
`check_pod_readiness` returns, `false` when it raises `ReadinessError`). -/
structure Env where
  conf : Conf
  get_host_name : String → String → String
  ready : String → Bool

/-- One externally visible action of a handler. -/
inductive Call where
  /-- `DBHandler.execute_query(target, service, query, {host, port})`. -/
  | execQuery (target service query host : String) (port : Nat)
  | provisionMaster (pod : String)
  | provisionCoordinator (pod : String)
  | provisionWorker (pod : String)
  | provisionAll
  deriving DecidableEq

def addNodeQuery : String := "SELECT master_add_node(%(host)s, %(port)s)"

def setCoordinatorQuery : String := "SELECT citus_set_coordinator_host(%(host)s)"

def removeNodeQuery : String :=
  "DELETE FROM pg_dist_shard_placement WHERE nodename=%(host)s AND nodeport=%(port)s; SELECT master_remove_node(%(host)s, %(port)s)"

/-- `set.add`: insert when absent. -/
def addSet (l : List String) (x : String) : List String :=
  if x ∈ l then l else l ++ [x]

/-- `set.discard`: remove when present, no error when absent. -/
def discardSet (l : List String) (x : String) : List String :=
  l.filter (fun y => y ≠ x)

structure ManagerState where
  citus_master_nodes : List String
  citus_worker_nodes : List String
  citus_coordinator_nodes : List String
  init_provision : Bool
  deriving DecidableEq

/-- The state built by `Manager.__init__`. -/
def initState : ManagerState := ⟨[], [], [], false⟩

structure StepResult where
  state : ManagerState
  calls : List Call
  raised : Bool
  deriving DecidableEq

/-- `Manager.exec_on_masters`: one parameterized query per registered master,
with the worker host resolved inside the loop. -/
def exec_on_masters (env : Env) (s : ManagerState) (query worker_name : String) : List Call :=
  s.citus_master_nodes.map (fun master =>
    Call.execQuery master env.conf.master_service query
      (env.get_host_name worker_name env.conf.worker_service) env.conf.pg_port)

/-- `Manager.exec_on_coordinators`. -/
def exec_on_coordinators (env : Env) (s : ManagerState) (query worker_name : String) : List Call :=
  s.citus_coordinator_nodes.map (fun coordinator =>
    Call.execQuery coordinator env.conf.coordinator_service query
      (env.get_host_name worker_name env.conf.worker_service) env.conf.pg_port)

/-- The single query emitted by `Manager.set_coordinator_master`. -/
def set_coordinator_master (env : Env) (pod_name : String) : Call :=
  Call.execQuery pod_name env.conf.master_service setCoordinatorQuery
    (env.get_host_name pod_name env.conf.master_service) env.conf.pg_port

/-- The single query emitted by `Manager.set_coordinator_coordinator`. -/
def set_coordinator_coordinator (env : Env) (pod_name : String) : Call :=
  Call.execQuery pod_name env.conf.coordinator_service setCoordinatorQuery
    (env.get_host_name pod_name env.conf.coordinator_service) env.conf.pg_port

/-- `Manager.add_worker`: gate readiness, register the worker, announce it to
every master and coordinator, then run the provisioning branch. -/
def add_worker (env : Env) (pod_name : String) (s : ManagerState) : StepResult :=
  if env.ready pod_name then
    let s1 : ManagerState := { s with citus_worker_nodes := addSet s.citus_worker_nodes pod_name }
    let qs := exec_on_masters env s1 addNodeQuery pod_name
              ++ exec_on_coordinators env s1 addNodeQuery pod_name
    if env.conf.minimum_workers ≤ s1.citus_worker_nodes.length then
      if s1.init_provision then
        ⟨s1, qs ++ [Call.provisionWorker pod_name], false⟩
      else
        ⟨{ s1 with init_provision := true }, qs ++ [Call.provisionAll], false⟩
    else ⟨s1, qs, false⟩
  else ⟨s, [], true⟩

/-- The `for worker_pod in self.citus_worker_nodes: self.add_worker(worker_pod)`
replay loop shared by `add_master` and `add_coordinator`.  A `ReadinessError`
raised by one `add_worker` aborts the loop and propagates. -/
def replay_workers (env : Env) : List String → ManagerState → StepResult
  | [], s => ⟨s, [], false⟩
  | w :: ws, s =>
    let r := add_worker env w s
    if r.raised then ⟨r.state, r.calls, true⟩
    else
      let r2 := replay_workers env ws r.state
      ⟨r2.state, r.calls ++ r2.calls, r2.raised⟩

/-- `Manager.add_master`. -/
def add_master (env : Env) (pod_name : String) (s : ManagerState) : StepResult :=
  if env.ready pod_name then
    let s1 : ManagerState := { s with citus_master_nodes := addSet s.citus_master_nodes pod_name }
    let c2 : List Call :=
      if env.conf.minimum_workers ≤ s1.citus_worker_nodes.length
      then [Call.provisionMaster pod_name] else []
    let r := replay_workers env s1.citus_worker_nodes s1
    ⟨r.state, set_coordinator_master env pod_name :: (c2 ++ r.calls), r.raised⟩
  else ⟨s, [], true⟩

/-- `Manager.remove_master`: local bookkeeping only. -/
def remove_master (pod_name : String) (s : ManagerState) : StepResult :=
  ⟨{ s with citus_master_nodes := discardSet s.citus_master_nodes pod_name }, [], false⟩

/-- `Manager.add_coordinator`. -/
def add_coordinator (env : Env) (pod_name : String) (s : ManagerState) : StepResult :=
  if env.ready pod_name then
    let s1 : ManagerState :=
      { s with citus_coordinator_nodes := addSet s.citus_coordinator_nodes pod_name }
    let c2 : List Call :=
      if env.conf.minimum_workers ≤ s1.citus_worker_nodes.length
      then [Call.provisionCoordinator pod_name] else []
    let r := replay_workers env s1.citus_worker_nodes s1
    ⟨r.state, set_coordinator_coordinator env pod_name :: (c2 ++ r.calls), r.raised⟩
  else ⟨s, [], true⟩

/-- `Manager.remove_coordinator`: local bookkeeping only. -/
def remove_coordinator (pod_name : String) (s : ManagerState) : StepResult :=
  ⟨{ s with citus_coordinator_nodes := discardSet s.citus_coordinator_nodes pod_name }, [], false⟩

/-- `Manager.remove_worker`: discard from the Workers set, then issue the
compound deregistration query against every master (and only the masters). -/
def remove_worker (env : Env) (worker_name : String) (s : ManagerState) : StepResult :=
  let s1 : ManagerState :=
    { s with citus_worker_nodes := discardSet s.citus_worker_nodes worker_name }
  ⟨s1, exec_on_masters env s1 removeNodeQuery worker_name, false⟩

/-! ## The event loop (`Manager.run`)

An event is embedded as the tuple the loop extracts from the raw platform
event — the event kind, the `citusType` label (`""` when the pod has no
recognized label) and the pod name — together with the readiness oracle in
force while this event is processed.  The `pod_interactions` dict literal is
keyed by the three configured labels; Python dict literals let a later key
overwrite an earlier equal one, so lookup tests `worker_label` first, then
`coordinator_label`, then `master_label`. -/

structure Event where
  event_type : String
  citus_type : String
  pod_name : String
  ready : String → Bool

/-- Lookup in `pod_interactions["ADDED"]` followed by the handler call. -/
def dispatch_added (env : Env) (citus_type pod_name : String) (s : ManagerState) :
    Option StepResult :=
  if citus_type = env.conf.worker_label then some (add_worker env pod_name s)
  else if citus_type = env.conf.coordinator_label then some (add_coordinator env pod_name s)
  else if citus_type = env.conf.master_label then some (add_master env pod_name s)
  else none

/-- Lookup in `pod_interactions["DELETED"]` followed by the handler call. -/
def dispatch_deleted (env : Env) (citus_type pod_name : String) (s : ManagerState) :
    Option StepResult :=
  if citus_type = env.conf.worker_label then some (remove_worker env pod_name s)
  else if citus_type = env.conf.coordinator_label then some (remove_coordinator pod_name s)
  else if citus_type = env.conf.master_label then some (remove_master pod_name s)
  else none

/-- One iteration of the `run` loop: filter events without a recognized label
or kind, dispatch, and catch `ReadinessError` at the loop boundary (the raise
is logged; the state as mutated so far is kept). -/
def process_event (conf : Conf) (ghn : String → String → String) (e : Event)
    (s : ManagerState) : ManagerState × List Call :=
  let env : Env := ⟨conf, ghn, e.ready⟩
  if e.citus_type = "" then (s, [])
  else if e.event_type = "ADDED" then
    match dispatch_added env e.citus_type e.pod_name s with
    | some r => (r.state, r.calls)
    | none => (s, [])
  else if e.event_type = "DELETED" then
    match dispatch_deleted env e.citus_type e.pod_name s with
    | some r => (r.state, r.calls)
    | none => (s, [])
  else (s, [])

def process_event_state (conf : Conf) (ghn : String → String → String)
    (s : ManagerState) (e : Event) : ManagerState :=
  (process_event conf ghn e s).1

/-- The topology state after the loop has consumed a finite event sequence,
starting from the state built by `__init__`. -/
def stateAfter (conf : Conf) (ghn : String → String → String)
    (events : List Event) : ManagerState :=
  events.foldl (process_event_state conf ghn) initState

/-- The provisioning flag after the first `k` events. -/
def flagAt (conf : Conf) (ghn : String → String → String)
    (events : List Event) (k : Nat) : Bool :=
  (stateAfter conf ghn (events.take k)).init_provision

/-- The size of the Workers set after the first `k` events. -/
def workersAt (conf : Conf) (ghn : String → String → String)
    (events : List Event) (k : Nat) : Nat :=
  (stateAfter conf ghn (events.take k)).citus_worker_nodes.length

/-! ## Basic facts about the embedded set operations -/

lemma mem_addSet_self (l : List String) (x : String) : x ∈ addSet l x := by
  by_cases h : x ∈ l <;> simp [addSet, h]

lemma addSet_of_mem {l : List String} {x : String} (h : x ∈ l) : addSet l x = l := by
  simp [addSet, h]

lemma addSet_of_not_mem {l : List String} {x : String} (h : x ∉ l) : addSet l x = l ++ [x] := by
  simp [addSet, h]

lemma mem_of_mem_addSet {l : List String} {x y : String} (h : y ∈ addSet l x) :
    y ∈ l ∨ y = x := by
  by_cases hx : x ∈ l
  · rw [addSet_of_mem hx] at h
    exact Or.inl h
  · rw [addSet_of_not_mem hx] at h
    rcases List.mem_append.mp h with h1 | h1
    · exact Or.inl h1
    · exact Or.inr (List.mem_singleton.mp h1)

lemma length_le_length_addSet (l : List String) (x : String) :
    l.length ≤ (addSet l x).length := by
  by_cases h : x ∈ l <;> simp [addSet, h]

lemma discardSet_of_not_mem {l : List String} {x : String} (h : x ∉ l) :
    discardSet l x = l := by
  unfold discardSet
  rw [List.filter_eq_self]
  intro a ha
  rw [decide_eq_true_eq]
  intro hax
  exact h (hax ▸ ha)

lemma not_mem_discardSet (l : List String) (x : String) : x ∉ discardSet l x := by
  simp [discardSet, List.mem_filter]

lemma length_discardSet_le (l : List String) (x : String) :
    (discardSet l x).length ≤ l.length :=
  List.length_filter_le ..

lemma mem_of_mem_discardSet {l : List String} {x y : String}
    (h : y ∈ discardSet l x) : y ∈ l :=
  List.mem_of_mem_filter h

lemma foldl_addSet_append (ws : List String) : ∀ (l : List String), ws.Nodup →
    (∀ w ∈ ws, w ∉ l) → ws.foldl addSet l = l ++ ws := by
  induction ws with
  | nil => intro l _ _; simp
  | cons w ws ih =>
    intro l hnd hdis
    have hw : w ∉ l := hdis w (List.mem_cons_self w ws)
    have hnd2 := List.nodup_cons.mp hnd
    rw [List.foldl_cons, addSet_of_not_mem hw, ih (l ++ [w]) hnd2.2 ?_]
    · rw [List.append_assoc, List.singleton_append]
    · intro v hv hmem
      rcases List.mem_append.mp hmem with h1 | h1
      · exact hdis v (List.mem_cons_of_mem _ hv) h1
      · exact hnd2.1 (List.mem_singleton.mp h1 ▸ hv)

/-! ## Concrete sample data used by the witnesses -/

def confA : Conf :=
  ⟨"citus-master", "citus-coordinator", "citus-worker",
   "master-svc", "coordinator-svc", "worker-svc", 2, 5432⟩

def ghnA : String → String → String := fun pod svc => pod ++ "." ++ svc

def envA : Env := ⟨confA, ghnA, fun _ => true⟩

def envNotReady : Env := ⟨confA, ghnA, fun _ => false⟩

/-! ## The replay loop of master and coordinator ADDED handlers -/

/-- Recognizes the add-node queries among the emitted calls. -/
def isAddNodeQuery : Call → Bool
  | Call.execQuery _ _ q _ _ => q == addNodeQuery
  | _ => false

lemma filter_addNode_map (l : List String) (srv host : String) (port : Nat) :
    (l.map (fun t => Call.execQuery t srv addNodeQuery host port)).filter isAddNodeQuery
      = l.map (fun t => Call.execQuery t srv addNodeQuery host port) := by
  rw [List.filter_eq_self]
  intro a ha
  rcases List.mem_map.mp ha with ⟨t, _, rfl⟩
  simp [isAddNodeQuery]

lemma filter_addNode_exec_on_masters (env : Env) (s : ManagerState) (w : String) :
    (exec_on_masters env s addNodeQuery w).filter isAddNodeQuery
      = exec_on_masters env s addNodeQuery w :=
  filter_addNode_map ..

lemma filter_addNode_exec_on_coordinators (env : Env) (s : ManagerState) (w : String) :
    (exec_on_coordinators env s addNodeQuery w).filter isAddNodeQuery
      = exec_on_coordinators env s addNodeQuery w :=
  filter_addNode_map ..

lemma exec_on_masters_congr (env : Env) {s t : ManagerState} (q w : String)
    (h : s.citus_master_nodes = t.citus_master_nodes) :
    exec_on_masters env s q w = exec_on_masters env t q w := by
  unfold exec_on_masters
  rw [h]

lemma exec_on_coordinators_congr (env : Env) {s t : ManagerState} (q w : String)
    (h : s.citus_coordinator_nodes = t.citus_coordinator_nodes) :
    exec_on_coordinators env s q w = exec_on_coordinators env t q w := by
  unfold exec_on_coordinators
  rw [h]

/-- A successful `add_worker` only touches the Workers set and the flag. -/
lemma add_worker_ready_state (env : Env) (w : String) (s : ManagerState)
    (hr : env.ready w = true) :
    ∃ b : Bool,
      (add_worker env w s).state
        = ⟨s.citus_master_nodes, addSet s.citus_worker_nodes w,
           s.citus_coordinator_nodes, b⟩
      ∧ (add_worker env w s).raised = false := by
  obtain ⟨ms, wl, cs, fl⟩ := s
  by_cases h1 : env.conf.minimum_workers ≤ (addSet wl w).length
  · by_cases h2 : fl = true
    · exact ⟨fl, by simp [add_worker, hr, h1, h2], by simp [add_worker, hr, h1, h2]⟩
    · exact ⟨true, by simp [add_worker, hr, h1, h2], by simp [add_worker, hr, h1, h2]⟩
  · exact ⟨fl, by simp [add_worker, hr, h1], by simp [add_worker, hr, h1]⟩

/-- A successful `add_worker` on an already registered worker: every set is
unchanged and the add-node queries among its calls are exactly one per
registered master followed by one per registered coordinator. -/
lemma add_worker_ready_mem (env : Env) (w : String) (s : ManagerState)
    (hr : env.ready w = true) (hm : w ∈ s.citus_worker_nodes) :
    (add_worker env w s).raised = false ∧
    (add_worker env w s).state.citus_master_nodes = s.citus_master_nodes ∧
    (add_worker env w s).state.citus_coordinator_nodes = s.citus_coordinator_nodes ∧
    (add_worker env w s).state.citus_worker_nodes = s.citus_worker_nodes ∧
    (add_worker env w s).calls.filter isAddNodeQuery
      = exec_on_masters env s addNodeQuery w ++ exec_on_coordinators env s addNodeQuery w := by
  obtain ⟨ms, wl, cs, fl⟩ := s
  have hadd : addSet wl w = wl := addSet_of_mem hm
  by_cases h1 : env.conf.minimum_workers ≤ wl.length
  · by_cases h2 : fl = true
    · refine ⟨by simp [add_worker, hr, hadd, h1, h2], by simp [add_worker, hr, hadd, h1, h2],
        by simp [add_worker, hr, hadd, h1, h2], by simp [add_worker, hr, hadd, h1, h2], ?_⟩
      simp only [add_worker, hr, if_true, hadd, h1, h2, if_pos]
      rw [List.filter_append, List.filter_append, filter_addNode_exec_on_masters,
        filter_addNode_exec_on_coordinators]
      simp [isAddNodeQuery]
    · refine ⟨by simp [add_worker, hr, hadd, h1, h2], by simp [add_worker, hr, hadd, h1, h2],
        by simp [add_worker, hr, hadd, h1, h2], by simp [add_worker, hr, hadd, h1, h2], ?_⟩
      simp only [add_worker, hr, if_true, hadd, h1, h2, if_pos, Bool.false_eq_true, if_false]
      rw [List.filter_append, List.filter_append, filter_addNode_exec_on_masters,
        filter_addNode_exec_on_coordinators]
      simp [isAddNodeQuery]
  · refine ⟨by simp [add_worker, hr, hadd, h1], by simp [add_worker, hr, hadd, h1],
      by simp [add_worker, hr, hadd, h1], by simp [add_worker, hr, hadd, h1], ?_⟩
    simp only [add_worker, hr, if_true, hadd, h1, if_false]
    rw [List.filter_append, filter_addNode_exec_on_masters,
      filter_addNode_exec_on_coordinators]

/-- Replaying a list of already registered, ready workers never raises, leaves
every set unchanged, and its add-node queries are, worker by worker in replay
order, one per registered master then one per registered coordinator. -/
lemma replay_workers_ok (env : Env) (ws : List String) : ∀ (s : ManagerState),
    (∀ w ∈ ws, env.ready w = true ∧ w ∈ s.citus_worker_nodes) →
    (replay_workers env ws s).raised = false ∧
    (replay_workers env ws s).state.citus_master_nodes = s.citus_master_nodes ∧
    (replay_workers env ws s).state.citus_coordinator_nodes = s.citus_coordinator_nodes ∧
    (replay_workers env ws s).state.citus_worker_nodes = s.citus_worker_nodes ∧
    (replay_workers env ws s).calls.filter isAddNodeQuery
      = ws.flatMap (fun w => exec_on_masters env s addNodeQuery w
          ++ exec_on_coordinators env s addNodeQuery w) := by
  induction ws with
  | nil => intro s _; simp [replay_workers]
  | cons w ws ih =>
    intro s h
    have hw := h w (List.mem_cons_self w ws)
    obtain ⟨hr0, hm1, hc1, hw1, hq1⟩ := add_worker_ready_mem env w s hw.1 hw.2
    have ih2 := ih (add_worker env w s).state (fun v hv => by
      rcases h v (List.mem_cons_of_mem _ hv) with ⟨hv1, hv2⟩
      exact ⟨hv1, hw1 ▸ hv2⟩)
    obtain ⟨ihr, ihm, ihc, ihw, ihq⟩ := ih2
    simp only [replay_workers, hr0, Bool.false_eq_true, if_false]
    refine ⟨ihr, ihm.trans hm1, ihc.trans hc1, ihw.trans hw1, ?_⟩
    rw [List.filter_append, hq1, ihq, List.flatMap_cons]
    congr 1
    unfold exec_on_masters exec_on_coordinators
    simp only [hm1, hc1]

/-- `add_worker` raises only before mutating anything. -/
lemma add_worker_raised (env : Env) (w : String) (s : ManagerState)
    (h : (add_worker env w s).raised = true) :
    add_worker env w s = ⟨s, [], true⟩ := by
  by_cases hr : env.ready w = true
  · obtain ⟨b, _, hb⟩ := add_worker_ready_state env w s hr
    rw [hb] at h
    cases h
  · simp only [Bool.not_eq_true] at hr
    simp [add_worker, hr]

/-- Splitting a replay run at a list append. -/
lemma replay_workers_append (env : Env) (ws1 ws2 : List String) : ∀ s : ManagerState,
    replay_workers env (ws1 ++ ws2) s =
      if (replay_workers env ws1 s).raised then replay_workers env ws1 s
      else
        ⟨(replay_workers env ws2 (replay_workers env ws1 s).state).state,
         (replay_workers env ws1 s).calls
           ++ (replay_workers env ws2 (replay_workers env ws1 s).state).calls,
         (replay_workers env ws2 (replay_workers env ws1 s).state).raised⟩ := by
  induction ws1 with
  | nil => intro s; simp [replay_workers]
  | cons w ws ih =>
    intro s
    simp only [List.cons_append, replay_workers, List.append_eq]
    rw [ih (add_worker env w s).state]
    by_cases hr : (add_worker env w s).raised = true
    · simp [hr]
    · simp only [Bool.not_eq_true] at hr
      by_cases h2 : (replay_workers env ws (add_worker env w s).state).raised = true
      · simp [hr, h2]
      · simp only [Bool.not_eq_true] at h2
        simp [hr, h2, List.append_assoc]

/-- The state left by a sequence of worker ADDED handler runs. -/
def run_worker_adds (env : Env) (ws : List String) (s : ManagerState) : ManagerState :=
  ws.foldl (fun t w => (add_worker env w t).state) s

lemma run_worker_adds_components (env : Env) (ws : List String) : ∀ s : ManagerState,
    (∀ w ∈ ws, env.ready w = true) →
    (run_worker_adds env ws s).citus_master_nodes = s.citus_master_nodes ∧
    (run_worker_adds env ws s).citus_coordinator_nodes = s.citus_coordinator_nodes ∧
    (run_worker_adds env ws s).citus_worker_nodes = ws.foldl addSet s.citus_worker_nodes := by
  induction ws with
  | nil => intro s _; exact ⟨rfl, rfl, rfl⟩
  | cons w ws ih =>
    intro s h
    obtain ⟨b, hb, _⟩ := add_worker_ready_state env w s (h w (List.mem_cons_self w ws))
    have step : run_worker_adds env (w :: ws) s
        = run_worker_adds env ws (add_worker env w s).state := rfl
    obtain ⟨ihm, ihc, ihw⟩ := ih (add_worker env w s).state
      (fun v hv => h v (List.mem_cons_of_mem _ hv))
    rw [step, ihm, ihc, ihw, hb]
    exact ⟨rfl, rfl, rfl⟩

lemma flatMap_singleton {α β : Type} (l : List α) (f : α → β) :
    l.flatMap (fun x => [f x]) = l.map f := by
  induction l with
  | nil => rfl
  | cons a l ih =>
    rw [List.flatMap_cons, ih]
    rfl

lemma isAddNode_set_coordinator_master (env : Env) (p : String) :
    isAddNodeQuery (set_coordinator_master env p) = false := by
  simp only [set_coordinator_master, isAddNodeQuery]
  decide

lemma isAddNode_set_coordinator_coordinator (env : Env) (p : String) :
    isAddNodeQuery (set_coordinator_coordinator env p) = false := by
  simp only [set_coordinator_coordinator, isAddNodeQuery]
  decide

lemma addSet_nil (x : String) : addSet [] x = [x] := by
  simp [addSet]

/-! ## Claim C4 — a master ADDED event replays every existing worker -/

/-- Claim C4: starting from the empty topology, after ADDED events for the
distinct workers `ws` (all pods ready), the ADDED event for a master `m`
emits exactly one add-node query per worker of `ws`, in order, each addressed
to `m` under the master service scope and parameterized with the resolved
worker host and the configured database port — and no other add-node
query. -/
theorem C4_master_added_replays_each_worker (env : Env) (ws : List String) (m : String)
    (hnd : ws.Nodup) (hready : ∀ p, env.ready p = true) :
    (add_master env m (run_worker_adds env ws initState)).calls.filter isAddNodeQuery
      = ws.map (fun w => Call.execQuery m env.conf.master_service addNodeQuery
          (env.get_host_name w env.conf.worker_service) env.conf.pg_port) := by
  obtain ⟨hm0, hc0, hw0⟩ :=
    run_worker_adds_components env ws initState (fun w _ => hready w)
  have hw1 : (run_worker_adds env ws initState).citus_worker_nodes = ws := by
    rw [hw0]
    simpa using foldl_addSet_append ws [] hnd (by simp)
  obtain ⟨fl, hsf⟩ : ∃ fl : Bool, run_worker_adds env ws initState = ⟨[], ws, [], fl⟩ := by
    cases hsa : run_worker_adds env ws initState with
    | mk a b c d =>
      rw [hsa] at hm0 hc0 hw1
      exact ⟨d, by simp_all [initState]⟩
  rw [hsf]
  obtain ⟨-, -, -, -, hq⟩ := replay_workers_ok env ws ⟨[m], ws, [], fl⟩
    (fun w hw => ⟨hready w, hw⟩)
  simp only [add_master, hready m, if_true, addSet_nil]
  rw [List.filter_cons_of_neg, List.filter_append, hq]
  · have hc2 : ((if env.conf.minimum_workers ≤ ws.length
        then [Call.provisionMaster m] else []).filter isAddNodeQuery) = [] := by
      split <;> rfl
    rw [hc2, List.nil_append]
    simp only [exec_on_masters, exec_on_coordinators, List.map_cons, List.map_nil,
      List.append_nil]
    exact flatMap_singleton ws _
  · simp [isAddNode_set_coordinator_master]

/-- Claim C4, witness: two distinct workers then one master, everything
ready. -/
theorem C4_master_added_replays_each_worker_witness :
    (["w1", "w2"] : List String).Nodup ∧ (∀ p, envA.ready p = true) ∧
    (add_master envA "m1" (run_worker_adds envA ["w1", "w2"] initState)).calls.filter
        isAddNodeQuery
      = (["w1", "w2"] : List String).map (fun w =>
          Call.execQuery "m1" envA.conf.master_service addNodeQuery
            (envA.get_host_name w envA.conf.worker_service) envA.conf.pg_port) :=
  ⟨by decide, fun _ => rfl,
    C4_master_added_replays_each_worker envA ["w1", "w2"] "m1" (by decide) (fun _ => rfl)⟩

/-! ## Claim C9 — a ReadinessError inside the replay loop -/

/-- Claim C9: during a master ADDED event, the replay loop re-runs the full
worker ADDED handler per existing worker.  When the Workers set is
`ws1 ++ wbad :: ws2` with every worker of `ws1` ready and `wbad` failing the
gate, the `ReadinessError` raised at `wbad` propagates out of `add_master`
(the handler is aborted), yet the new master is already registered in the
Masters set; the add-node queries emitted during the event are exactly those
of the replayed prefix `ws1` — one per master including the new one, then one
per coordinator, per replayed worker — so the queries of `wbad` and of the
not-yet-replayed suffix `ws2` are never issued. -/
theorem C9_master_added_aborts_mid_replay (env : Env) (m wbad : String)
    (ws1 ws2 : List String) (s : ManagerState)
    (hsplit : s.citus_worker_nodes = ws1 ++ wbad :: ws2)
    (hm : env.ready m = true)
    (h1 : ∀ w ∈ ws1, env.ready w = true)
    (hbad : env.ready wbad = false) :
    (add_master env m s).raised = true ∧
    m ∈ (add_master env m s).state.citus_master_nodes ∧
    (add_master env m s).state.citus_worker_nodes = s.citus_worker_nodes ∧
    (add_master env m s).calls.filter isAddNodeQuery
      = ws1.flatMap (fun w =>
          (addSet s.citus_master_nodes m).map (fun t =>
            Call.execQuery t env.conf.master_service addNodeQuery
              (env.get_host_name w env.conf.worker_service) env.conf.pg_port)
          ++ s.citus_coordinator_nodes.map (fun c =>
            Call.execQuery c env.conf.coordinator_service addNodeQuery
              (env.get_host_name w env.conf.worker_service) env.conf.pg_port)) := by
  obtain ⟨ms, wl, cs, fl⟩ := s
  simp only at hsplit
  subst hsplit
  have haw : ∀ t : ManagerState, add_worker env wbad t = ⟨t, [], true⟩ := by
    intro t
    simp [add_worker, hbad]
  obtain ⟨hr1, hm1, hc1, hw1, hq1⟩ :=
    replay_workers_ok env ws1 ⟨addSet ms m, ws1 ++ wbad :: ws2, cs, fl⟩
      (fun w hw => ⟨h1 w hw, List.mem_append_left _ hw⟩)
  simp only [add_master, hm, if_true]
  rw [replay_workers_append env ws1 (wbad :: ws2) _]
  simp only [hr1, Bool.false_eq_true, if_false]
  simp only [replay_workers, haw, if_true]
  refine ⟨by trivial, ?_, ?_, ?_⟩
  · rw [hm1]
    exact mem_addSet_self ms m
  · exact hw1
  · rw [List.filter_cons_of_neg, List.filter_append, List.filter_append]
    · have hc2 : ((if env.conf.minimum_workers ≤ (ws1 ++ wbad :: ws2).length
          then [Call.provisionMaster m] else []).filter isAddNodeQuery) = [] := by
        split <;> rfl
      rw [hc2, List.nil_append, hq1]
      simp only [List.filter_nil, List.append_nil]
      simp only [exec_on_masters, exec_on_coordinators]
    · simp [isAddNode_set_coordinator_master]

def envB : Env := ⟨confA, ghnA, fun p => !(p == "w2")⟩

/-- Claim C9, witness: Workers set `[w1, w2, w3]`, `w2` failing the gate while
master `m1` is added; only the query for `w1` is emitted and `m1` stays
registered. -/
theorem C9_master_added_aborts_mid_replay_witness :
    (⟨["m0"], ["w1", "w2", "w3"], [], true⟩ : ManagerState).citus_worker_nodes
        = ["w1"] ++ "w2" :: ["w3"] ∧
    envB.ready "m1" = true ∧
    (∀ w ∈ (["w1"] : List String), envB.ready w = true) ∧
    envB.ready "w2" = false ∧
    ((add_master envB "m1" ⟨["m0"], ["w1", "w2", "w3"], [], true⟩).raised = true ∧
     "m1" ∈ (add_master envB "m1"
        (⟨["m0"], ["w1", "w2", "w3"], [], true⟩ : ManagerState)).state.citus_master_nodes ∧
     (add_master envB "m1"
        (⟨["m0"], ["w1", "w2", "w3"], [], true⟩ : ManagerState)).state.citus_worker_nodes
       = (⟨["m0"], ["w1", "w2", "w3"], [], true⟩ : ManagerState).citus_worker_nodes ∧
     (add_master envB "m1"
        (⟨["m0"], ["w1", "w2", "w3"], [], true⟩ : ManagerState)).calls.filter isAddNodeQuery
       = (["w1"] : List String).flatMap (fun w =>
          (addSet (⟨["m0"], ["w1", "w2", "w3"], [], true⟩ : ManagerState).citus_master_nodes
              "m1").map (fun t =>
            Call.execQuery t envB.conf.master_service addNodeQuery
              (envB.get_host_name w envB.conf.worker_service) envB.conf.pg_port)
          ++ (⟨["m0"], ["w1", "w2", "w3"], [], true⟩ : ManagerState).citus_coordinator_nodes.map
            (fun c =>
              Call.execQuery c envB.conf.coordinator_service addNodeQuery
                (envB.get_host_name w envB.conf.worker_service) envB.conf.pg_port))) :=
  ⟨by decide, by decide, by decide, by decide,
    C9_master_added_aborts_mid_replay envB "m1" "w2" ["w1"] ["w3"]
      ⟨["m0"], ["w1", "w2", "w3"], [], true⟩ (by decide) (by decide) (by decide) (by decide)⟩

/-! ## Claim C10 — what the replay loop does to every known node -/

lemma add_worker_flip (env : Env) (w : String) (s : ManagerState)
    (hr : env.ready w = true) (hm : w ∈ s.citus_worker_nodes)
    (hth : env.conf.minimum_workers ≤ s.citus_worker_nodes.length)
    (hfl : s.init_provision = false) :
    (add_worker env w s).state
      = ⟨s.citus_master_nodes, s.citus_worker_nodes, s.citus_coordinator_nodes, true⟩ ∧
    Call.provisionAll ∈ (add_worker env w s).calls ∧
    (add_worker env w s).raised = false := by
  obtain ⟨ms, wl, cs, fl⟩ := s
  simp only at hth hfl
  have hadd : addSet wl w = wl := addSet_of_mem hm
  refine ⟨?_, ?_, ?_⟩ <;> simp [add_worker, hr, hadd, hth, hfl]

lemma add_worker_provis (env : Env) (w : String) (s : ManagerState)
    (hr : env.ready w = true) (hm : w ∈ s.citus_worker_nodes)
    (hth : env.conf.minimum_workers ≤ s.citus_worker_nodes.length)
    (hfl : s.init_provision = true) :
    (add_worker env w s).state = s ∧
    Call.provisionWorker w ∈ (add_worker env w s).calls ∧
    (add_worker env w s).raised = false := by
  obtain ⟨ms, wl, cs, fl⟩ := s
  simp only at hth hfl
  have hadd : addSet wl w = wl := addSet_of_mem hm
  refine ⟨?_, ?_, ?_⟩ <;> simp [add_worker, hr, hadd, hth, hfl]

lemma replay_workers_provision (env : Env) (ws : List String) : ∀ s : ManagerState,
    (∀ w ∈ ws, env.ready w = true ∧ w ∈ s.citus_worker_nodes) →
    env.conf.minimum_workers ≤ s.citus_worker_nodes.length →
    s.init_provision = true →
    (replay_workers env ws s).state = s ∧
    ∀ w ∈ ws, Call.provisionWorker w ∈ (replay_workers env ws s).calls := by
  induction ws with
  | nil => intro s _ _ _; exact ⟨rfl, by simp⟩
  | cons w ws ih =>
    intro s h hth hfl
    obtain ⟨hst, hmem, hrf⟩ := add_worker_provis env w s
      (h w (List.mem_cons_self w ws)).1 (h w (List.mem_cons_self w ws)).2 hth hfl
    simp only [replay_workers, hrf, Bool.false_eq_true, if_false, hst]
    obtain ⟨ih1, ih3⟩ := ih s (fun v hv => h v (List.mem_cons_of_mem _ hv)) hth hfl
    refine ⟨ih1, ?_⟩
    intro v hv
    rcases List.mem_cons.mp hv with rfl | hv2
    · exact List.mem_append_left _ hmem
    · exact List.mem_append_right _ (ih3 v hv2)

lemma replay_workers_flip (env : Env) (w0 : String) (ws : List String) (s : ManagerState)
    (h : ∀ w ∈ w0 :: ws, env.ready w = true ∧ w ∈ s.citus_worker_nodes)
    (hth : env.conf.minimum_workers ≤ s.citus_worker_nodes.length)
    (hfl : s.init_provision = false) :
    (replay_workers env (w0 :: ws) s).state
      = ⟨s.citus_master_nodes, s.citus_worker_nodes, s.citus_coordinator_nodes, true⟩ ∧
    Call.provisionAll ∈ (replay_workers env (w0 :: ws) s).calls ∧
    ∀ w ∈ ws, Call.provisionWorker w ∈ (replay_workers env (w0 :: ws) s).calls := by
  obtain ⟨hst, hmem, hrf⟩ := add_worker_flip env w0 s
    (h w0 (List.mem_cons_self w0 ws)).1 (h w0 (List.mem_cons_self w0 ws)).2 hth hfl
  simp only [replay_workers, hrf, Bool.false_eq_true, if_false, hst]
  obtain ⟨ih1, ih3⟩ := replay_workers_provision env ws
    (⟨s.citus_master_nodes, s.citus_worker_nodes, s.citus_coordinator_nodes, true⟩ : ManagerState)
    (fun v hv => (h v (List.mem_cons_of_mem _ hv))) hth rfl
  refine ⟨ih1, ?_, ?_⟩
  · exact List.mem_append_left _ hmem
  · intro v hv
    exact List.mem_append_right _ (ih3 v hv)

lemma replay_addnode_master_mem (env : Env) (ws : List String) (s : ManagerState)
    (h : ∀ w ∈ ws, env.ready w = true ∧ w ∈ s.citus_worker_nodes)
    {w t : String} (hw : w ∈ ws) (ht : t ∈ s.citus_master_nodes) :
    Call.execQuery t env.conf.master_service addNodeQuery
      (env.get_host_name w env.conf.worker_service) env.conf.pg_port
      ∈ (replay_workers env ws s).calls := by
  obtain ⟨-, -, -, -, hq⟩ := replay_workers_ok env ws s h
  refine List.mem_of_mem_filter (p := isAddNodeQuery) ?_
  rw [hq]
  refine List.mem_flatMap.mpr ⟨w, hw, ?_⟩
  apply List.mem_append_left
  exact List.mem_map.mpr ⟨t, ht, rfl⟩

lemma replay_addnode_coordinator_mem (env : Env) (ws : List String) (s : ManagerState)
    (h : ∀ w ∈ ws, env.ready w = true ∧ w ∈ s.citus_worker_nodes)
    {w t : String} (hw : w ∈ ws) (ht : t ∈ s.citus_coordinator_nodes) :
    Call.execQuery t env.conf.coordinator_service addNodeQuery
      (env.get_host_name w env.conf.worker_service) env.conf.pg_port
      ∈ (replay_workers env ws s).calls := by
  obtain ⟨-, -, -, -, hq⟩ := replay_workers_ok env ws s h
  refine List.mem_of_mem_filter (p := isAddNodeQuery) ?_
  rw [hq]
  refine List.mem_flatMap.mpr ⟨w, hw, ?_⟩
  apply List.mem_append_right
  exact List.mem_map.mpr ⟨t, ht, rfl⟩

/-- What the claim asserts of one master or coordinator ADDED handler run
`r`, relative to the node sets in force during its replay loop: every
registered worker is announced to every master and every coordinator again,
and when the threshold is met each replayed worker triggers a provisioning
call — the bulk one (setting the flag) for the first replayed worker when the
flag is still unset, the incremental one otherwise. -/
def replay_added_spec (env : Env) (r : StepResult)
    (masters coords workers : List String) (flag : Bool) : Prop :=
  (∀ w ∈ workers, ∀ t ∈ masters,
     Call.execQuery t env.conf.master_service addNodeQuery
       (env.get_host_name w env.conf.worker_service) env.conf.pg_port ∈ r.calls) ∧
  (∀ w ∈ workers, ∀ t ∈ coords,
     Call.execQuery t env.conf.coordinator_service addNodeQuery
       (env.get_host_name w env.conf.worker_service) env.conf.pg_port ∈ r.calls) ∧
  (env.conf.minimum_workers ≤ workers.length →
    (flag = false → workers ≠ [] →
      Call.provisionAll ∈ r.calls ∧ r.state.init_provision = true ∧
      ∀ w ∈ workers.tail, Call.provisionWorker w ∈ r.calls) ∧
    (flag = true → ∀ w ∈ workers, Call.provisionWorker w ∈ r.calls))

lemma replay_added_spec_of (env : Env) (s1 : ManagerState) (r : StepResult)
    (hready : ∀ p, env.ready p = true)
    (hstate : r.state = (replay_workers env s1.citus_worker_nodes s1).state)
    (hcalls : ∀ x, x ∈ (replay_workers env s1.citus_worker_nodes s1).calls → x ∈ r.calls) :
    replay_added_spec env r s1.citus_master_nodes s1.citus_coordinator_nodes
      s1.citus_worker_nodes s1.init_provision := by
  have hmem : ∀ w ∈ s1.citus_worker_nodes,
      env.ready w = true ∧ w ∈ s1.citus_worker_nodes := fun w hw => ⟨hready w, hw⟩
  refine ⟨?_, ?_, ?_⟩
  · intro w hw t ht
    exact hcalls _ (replay_addnode_master_mem env _ s1 hmem hw ht)
  · intro w hw t ht
    exact hcalls _ (replay_addnode_coordinator_mem env _ s1 hmem hw ht)
  · intro hth
    constructor
    · intro hfl hne
      obtain ⟨w0, tl, hwl⟩ : ∃ w0 tl, s1.citus_worker_nodes = w0 :: tl := by
        cases hl : s1.citus_worker_nodes with
        | nil => exact absurd hl hne
        | cons a l => exact ⟨a, l, rfl⟩
      have hmem2 : ∀ w ∈ w0 :: tl, env.ready w = true ∧ w ∈ s1.citus_worker_nodes :=
        fun v hv => ⟨hready v, hwl.symm ▸ hv⟩
      obtain ⟨f1, f2, f3⟩ := replay_workers_flip env w0 tl s1 hmem2 hth hfl
      rw [hwl] at hstate hcalls
      refine ⟨hcalls _ f2, ?_, ?_⟩
      · rw [hstate, f1]
      · intro v hv
        rw [hwl] at hv
        exact hcalls _ (f3 v (by simpa using hv))
    · intro hfl
      obtain ⟨p1, p2⟩ := replay_workers_provision env s1.citus_worker_nodes s1 hmem hth hfl
      intro v hv
      exact hcalls _ (p2 v hv)

lemma add_master_ready_eq (env : Env) (m : String) (s : ManagerState)
    (hm : env.ready m = true) :
    add_master env m s =
      (let s1 : ManagerState := { s with citus_master_nodes := addSet s.citus_master_nodes m }
       ⟨(replay_workers env s1.citus_worker_nodes s1).state,
        set_coordinator_master env m ::
          ((if env.conf.minimum_workers ≤ s1.citus_worker_nodes.length
            then [Call.provisionMaster m] else [])
           ++ (replay_workers env s1.citus_worker_nodes s1).calls),
        (replay_workers env s1.citus_worker_nodes s1).raised⟩) := by
  simp [add_master, hm]

lemma add_coordinator_ready_eq (env : Env) (c : String) (s : ManagerState)
    (hc : env.ready c = true) :
    add_coordinator env c s =
      (let s1 : ManagerState :=
        { s with citus_coordinator_nodes := addSet s.citus_coordinator_nodes c }
       ⟨(replay_workers env s1.citus_worker_nodes s1).state,
        set_coordinator_coordinator env c ::
          ((if env.conf.minimum_workers ≤ s1.citus_worker_nodes.length
            then [Call.provisionCoordinator c] else [])
           ++ (replay_workers env s1.citus_worker_nodes s1).calls),
        (replay_workers env s1.citus_worker_nodes s1).raised⟩) := by
  simp [add_coordinator, hc]

/-- Claim C10: a master (and likewise a coordinator) ADDED event runs the
complete worker ADDED handler per existing worker, so with every pod ready
each replayed worker is announced to every currently known master — the
pre-existing ones, which thereby receive duplicate registrations, and the new
node — and to every coordinator; and when the Workers set is at or above the
threshold every replayed worker also triggers a provisioning call:
`provisionAll` (flipping the provisioning flag) for the first replayed worker
when the flag was unset, `provisionWorker` for each of the others — so
provisioning and the flag transition can happen during a master or
coordinator event. -/
theorem C10_replay_registrations_and_provisioning (env : Env) (m c : String)
    (s : ManagerState) (hready : ∀ p, env.ready p = true) :
    replay_added_spec env (add_master env m s) (addSet s.citus_master_nodes m)
      s.citus_coordinator_nodes s.citus_worker_nodes s.init_provision ∧
    replay_added_spec env (add_coordinator env c s) s.citus_master_nodes
      (addSet s.citus_coordinator_nodes c) s.citus_worker_nodes s.init_provision := by
  constructor
  · have h1 := replay_added_spec_of env
      { s with citus_master_nodes := addSet s.citus_master_nodes m }
      (add_master env m s) hready ?_ ?_
    · exact h1
    · rw [add_master_ready_eq env m s (hready m)]
    · rw [add_master_ready_eq env m s (hready m)]
      intro x hx
      exact List.mem_cons_of_mem _ (List.mem_append_right _ hx)
  · have h1 := replay_added_spec_of env
      { s with citus_coordinator_nodes := addSet s.citus_coordinator_nodes c }
      (add_coordinator env c s) hready ?_ ?_
    · exact h1
    · rw [add_coordinator_ready_eq env c s (hready c)]
    · rw [add_coordinator_ready_eq env c s (hready c)]
      intro x hx
      exact List.mem_cons_of_mem _ (List.mem_append_right _ hx)

/-- Claim C10, witness: one pre-existing master, one coordinator, two
workers, flag unset, everything ready; a new master `m1` and a new
coordinator `c1`. -/
theorem C10_replay_registrations_and_provisioning_witness :
    (∀ p, envA.ready p = true) ∧
    (replay_added_spec envA
        (add_master envA "m1" ⟨["m0"], ["w1", "w2"], ["c0"], false⟩)
        (addSet ["m0"] "m1") ["c0"] ["w1", "w2"] false ∧
     replay_added_spec envA
        (add_coordinator envA "c1" ⟨["m0"], ["w1", "w2"], ["c0"], false⟩)
        ["m0"] (addSet ["c0"] "c1") ["w1", "w2"] false) :=
  ⟨fun _ => rfl,
    C10_replay_registrations_and_provisioning envA "m1" "c1"
      ⟨["m0"], ["w1", "w2"], ["c0"], false⟩ (fun _ => rfl)⟩

/-! ## Claim C2 — flag lemmas for every handler

`J` below is the reachability invariant "a cleared flag means the Workers set
is still below the threshold"; `H2` says a handler can set the flag only when
its final Workers count meets the threshold. -/

lemma add_worker_flag_mono (env : Env) (p : String) (s : ManagerState)
    (h : s.init_provision = true) :
    (add_worker env p s).state.init_provision = true := by
  obtain ⟨ms, wl, cs, fl⟩ := s
  simp only at h
  by_cases hr : env.ready p = true
  · by_cases h1 : env.conf.minimum_workers ≤ (addSet wl p).length <;>
      simp [add_worker, hr, h1, h]
  · simp only [Bool.not_eq_true] at hr
    simp [add_worker, hr, h]

lemma add_worker_H2 (env : Env) (p : String) (s : ManagerState)
    (h : (add_worker env p s).state.init_provision = true) :
    s.init_provision = true ∨
      env.conf.minimum_workers ≤ (add_worker env p s).state.citus_worker_nodes.length := by
  obtain ⟨ms, wl, cs, fl⟩ := s
  by_cases hr : env.ready p = true
  · by_cases h1 : env.conf.minimum_workers ≤ (addSet wl p).length
    · right
      by_cases h2 : fl = true <;> simp [add_worker, hr, h1, h2]
    · left
      simp only [add_worker, hr, if_true, h1, if_false] at h
      simpa using h
  · left
    simp only [Bool.not_eq_true] at hr
    simp only [add_worker, hr, Bool.false_eq_true, if_false] at h
    simpa using h

lemma add_worker_J (env : Env) (p : String) (s : ManagerState)
    (hJ : s.init_provision = false →
      s.citus_worker_nodes.length < env.conf.minimum_workers)
    (h : (add_worker env p s).state.init_provision = false) :
    (add_worker env p s).state.citus_worker_nodes.length < env.conf.minimum_workers := by
  obtain ⟨ms, wl, cs, fl⟩ := s
  by_cases hr : env.ready p = true
  · by_cases h1 : env.conf.minimum_workers ≤ (addSet wl p).length
    · by_cases h2 : fl = true <;> simp [add_worker, hr, h1, h2] at h
    · simp only [add_worker, hr, if_true, h1, if_false] at h ⊢
      exact Nat.lt_of_not_le h1
  · simp only [Bool.not_eq_true] at hr
    simp only [add_worker, hr, Bool.false_eq_true, if_false] at h ⊢
    exact hJ h

lemma add_worker_size_le (env : Env) (p : String) (s : ManagerState) :
    s.citus_worker_nodes.length ≤ (add_worker env p s).state.citus_worker_nodes.length := by
  obtain ⟨ms, wl, cs, fl⟩ := s
  by_cases hr : env.ready p = true
  · by_cases h1 : env.conf.minimum_workers ≤ (addSet wl p).length
    · by_cases h2 : fl = true <;> simp [add_worker, hr, h1, h2, length_le_length_addSet]
    · simp [add_worker, hr, h1, length_le_length_addSet]
  · simp only [Bool.not_eq_true] at hr
    simp [add_worker, hr]

lemma replay_flag_mono (env : Env) (ws : List String) : ∀ s : ManagerState,
    s.init_provision = true → (replay_workers env ws s).state.init_provision = true := by
  induction ws with
  | nil => intro s h; exact h
  | cons w ws ih =>
    intro s h
    simp only [replay_workers]
    by_cases hr : (add_worker env w s).raised = true
    · simp only [hr, if_true]
      rw [add_worker_raised env w s hr]
      exact h
    · simp only [Bool.not_eq_true] at hr
      simp only [hr, Bool.false_eq_true, if_false]
      exact ih _ (add_worker_flag_mono env w s h)

lemma replay_size_le (env : Env) (ws : List String) : ∀ s : ManagerState,
    s.citus_worker_nodes.length
      ≤ (replay_workers env ws s).state.citus_worker_nodes.length := by
  induction ws with
  | nil => intro s; exact Nat.le_refl _
  | cons w ws ih =>
    intro s
    simp only [replay_workers]
    by_cases hr : (add_worker env w s).raised = true
    · simp only [hr, if_true]
      rw [add_worker_raised env w s hr]
    · simp only [Bool.not_eq_true] at hr
      simp only [hr, Bool.false_eq_true, if_false]
      exact Nat.le_trans (add_worker_size_le env w s) (ih _)

lemma replay_H2 (env : Env) (ws : List String) : ∀ s : ManagerState,
    (replay_workers env ws s).state.init_provision = true →
    s.init_provision = true ∨
      env.conf.minimum_workers
        ≤ (replay_workers env ws s).state.citus_worker_nodes.length := by
  induction ws with
  | nil => intro s h; exact Or.inl h
  | cons w ws ih =>
    intro s h
    simp only [replay_workers] at h ⊢
    by_cases hr : (add_worker env w s).raised = true
    · simp only [hr, if_true] at h
      rw [add_worker_raised env w s hr] at h
      exact Or.inl h
    · simp only [Bool.not_eq_true] at hr
      simp only [hr, Bool.false_eq_true, if_false] at h ⊢
      rcases ih _ h with h1 | h1
      · rcases add_worker_H2 env w s h1 with h2 | h2
        · exact Or.inl h2
        · exact Or.inr (Nat.le_trans h2 (replay_size_le env ws _))
      · exact Or.inr h1

lemma replay_J (env : Env) (ws : List String) : ∀ s : ManagerState,
    (s.init_provision = false →
      s.citus_worker_nodes.length < env.conf.minimum_workers) →
    (replay_workers env ws s).state.init_provision = false →
    (replay_workers env ws s).state.citus_worker_nodes.length
      < env.conf.minimum_workers := by
  induction ws with
  | nil => intro s hJ h; exact hJ h
  | cons w ws ih =>
    intro s hJ h
    simp only [replay_workers] at h ⊢
    by_cases hr : (add_worker env w s).raised = true
    · simp only [hr, if_true] at h ⊢
      rw [add_worker_raised env w s hr] at h ⊢
      exact hJ h
    · simp only [Bool.not_eq_true] at hr
      simp only [hr, Bool.false_eq_true, if_false] at h ⊢
      exact ih _ (add_worker_J env w s hJ) h

lemma add_master_flag_mono (env : Env) (m : String) (s : ManagerState)
    (h : s.init_provision = true) :
    (add_master env m s).state.init_provision = true := by
  by_cases hr : env.ready m = true
  · rw [add_master_ready_eq env m s hr]
    exact replay_flag_mono env _ _ h
  · simp only [Bool.not_eq_true] at hr
    simp [add_master, hr, h]

lemma add_master_H2 (env : Env) (m : String) (s : ManagerState)
    (h : (add_master env m s).state.init_provision = true) :
    s.init_provision = true ∨
      env.conf.minimum_workers ≤ (add_master env m s).state.citus_worker_nodes.length := by
  by_cases hr : env.ready m = true
  · rw [add_master_ready_eq env m s hr] at h ⊢
    exact replay_H2 env _ _ h
  · simp only [Bool.not_eq_true] at hr
    simp only [add_master, hr, Bool.false_eq_true, if_false] at h
    exact Or.inl h

lemma add_master_J (env : Env) (m : String) (s : ManagerState)
    (hJ : s.init_provision = false →
      s.citus_worker_nodes.length < env.conf.minimum_workers)
    (h : (add_master env m s).state.init_provision = false) :
    (add_master env m s).state.citus_worker_nodes.length < env.conf.minimum_workers := by
  by_cases hr : env.ready m = true
  · rw [add_master_ready_eq env m s hr] at h ⊢
    exact replay_J env _ _ hJ h
  · simp only [Bool.not_eq_true] at hr
    simp only [add_master, hr, Bool.false_eq_true, if_false] at h ⊢
    exact hJ h

lemma add_coordinator_flag_mono (env : Env) (c : String) (s : ManagerState)
    (h : s.init_provision = true) :
    (add_coordinator env c s).state.init_provision = true := by
  by_cases hr : env.ready c = true
  · rw [add_coordinator_ready_eq env c s hr]
    exact replay_flag_mono env _ _ h
  · simp only [Bool.not_eq_true] at hr
    simp [add_coordinator, hr, h]

lemma add_coordinator_H2 (env : Env) (c : String) (s : ManagerState)
    (h : (add_coordinator env c s).state.init_provision = true) :
    s.init_provision = true ∨
      env.conf.minimum_workers
        ≤ (add_coordinator env c s).state.citus_worker_nodes.length := by
  by_cases hr : env.ready c = true
  · rw [add_coordinator_ready_eq env c s hr] at h ⊢
    exact replay_H2 env _ _ h
  · simp only [Bool.not_eq_true] at hr
    simp only [add_coordinator, hr, Bool.false_eq_true, if_false] at h
    exact Or.inl h

lemma add_coordinator_J (env : Env) (c : String) (s : ManagerState)
    (hJ : s.init_provision = false →
      s.citus_worker_nodes.length < env.conf.minimum_workers)
    (h : (add_coordinator env c s).state.init_provision = false) :
    (add_coordinator env c s).state.citus_worker_nodes.length
      < env.conf.minimum_workers := by
  by_cases hr : env.ready c = true
  · rw [add_coordinator_ready_eq env c s hr] at h ⊢
    exact replay_J env _ _ hJ h
  · simp only [Bool.not_eq_true] at hr
    simp only [add_coordinator, hr, Bool.false_eq_true, if_false] at h ⊢
    exact hJ h

lemma process_event_state_cases (conf : Conf) (ghn : String → String → String)
    (e : Event) (s : ManagerState) :
    process_event_state conf ghn s e = s ∨
    process_event_state conf ghn s e
      = (add_worker ⟨conf, ghn, e.ready⟩ e.pod_name s).state ∨
    process_event_state conf ghn s e
      = (add_coordinator ⟨conf, ghn, e.ready⟩ e.pod_name s).state ∨
    process_event_state conf ghn s e
      = (add_master ⟨conf, ghn, e.ready⟩ e.pod_name s).state ∨
    process_event_state conf ghn s e
      = (remove_worker ⟨conf, ghn, e.ready⟩ e.pod_name s).state ∨
    process_event_state conf ghn s e = (remove_coordinator e.pod_name s).state ∨
    process_event_state conf ghn s e = (remove_master e.pod_name s).state := by
  unfold process_event_state process_event dispatch_added dispatch_deleted
  by_cases h0 : e.citus_type = ""
  · simp [h0]
  · rw [if_neg h0]
    by_cases hA : e.event_type = "ADDED"
    · rw [if_pos hA]
      by_cases hw : e.citus_type = conf.worker_label
      · simp [hw]
      · rw [if_neg hw]
        by_cases hc : e.citus_type = conf.coordinator_label
        · simp [hc]
        · rw [if_neg hc]
          by_cases hm : e.citus_type = conf.master_label
          · simp [hm]
          · simp [hm]
    · rw [if_neg hA]
      by_cases hD : e.event_type = "DELETED"
      · rw [if_pos hD]
        by_cases hw : e.citus_type = conf.worker_label
        · simp [hw]
        · rw [if_neg hw]
          by_cases hc : e.citus_type = conf.coordinator_label
          · simp [hc]
          · rw [if_neg hc]
            by_cases hm : e.citus_type = conf.master_label
            · simp [hm]
            · simp [hm]
      · simp [hD]

lemma process_event_flag_mono (conf : Conf) (ghn : String → String → String)
    (e : Event) (s : ManagerState) (h : s.init_provision = true) :
    (process_event_state conf ghn s e).init_provision = true := by
  rcases process_event_state_cases conf ghn e s with
    h0 | h0 | h0 | h0 | h0 | h0 | h0 <;> rw [h0]
  · exact h
  · exact add_worker_flag_mono _ _ _ h
  · exact add_coordinator_flag_mono _ _ _ h
  · exact add_master_flag_mono _ _ _ h
  · exact h
  · exact h
  · exact h

lemma process_event_H2 (conf : Conf) (ghn : String → String → String)
    (e : Event) (s : ManagerState)
    (h : (process_event_state conf ghn s e).init_provision = true) :
    s.init_provision = true ∨
      conf.minimum_workers
        ≤ (process_event_state conf ghn s e).citus_worker_nodes.length := by
  rcases process_event_state_cases conf ghn e s with
    h0 | h0 | h0 | h0 | h0 | h0 | h0 <;> rw [h0] at h ⊢
  · exact Or.inl h
  · exact add_worker_H2 _ _ _ h
  · exact add_coordinator_H2 _ _ _ h
  · exact add_master_H2 _ _ _ h
  · exact Or.inl h
  · exact Or.inl h
  · exact Or.inl h

lemma process_event_J (conf : Conf) (ghn : String → String → String)
    (e : Event) (s : ManagerState)
    (hJ : s.init_provision = false →
      s.citus_worker_nodes.length < conf.minimum_workers)
    (h : (process_event_state conf ghn s e).init_provision = false) :
    (process_event_state conf ghn s e).citus_worker_nodes.length
      < conf.minimum_workers := by
  rcases process_event_state_cases conf ghn e s with
    h0 | h0 | h0 | h0 | h0 | h0 | h0 <;> rw [h0] at h ⊢
  · exact hJ h
  · exact add_worker_J _ _ _ hJ h
  · exact add_coordinator_J _ _ _ hJ h
  · exact add_master_J _ _ _ hJ h
  · exact Nat.lt_of_le_of_lt (length_discardSet_le _ _) (hJ h)
  · exact hJ h
  · exact hJ h

lemma stateAfter_take_succ (conf : Conf) (ghn : String → String → String)
    (events : List Event) (k : Nat) :
    stateAfter conf ghn (events.take (k + 1))
      = match events[k]? with
        | some e => process_event_state conf ghn (stateAfter conf ghn (events.take k)) e
        | none => stateAfter conf ghn (events.take k) := by
  unfold stateAfter
  rw [List.take_succ, List.foldl_append]
  cases events[k]? <;> simp

lemma flagAt_mono (conf : Conf) (ghn : String → String → String)
    (events : List Event) : ∀ i j : Nat, i ≤ j →
    flagAt conf ghn events i = true → flagAt conf ghn events j = true := by
  intro i j
  induction j with
  | zero =>
    intro hij h
    rw [Nat.le_zero.mp hij] at h
    exact h
  | succ j ih =>
    intro hij h
    rcases Nat.lt_or_ge i (j + 1) with hlt | hge
    · have hj : flagAt conf ghn events j = true := ih (Nat.lt_succ_iff.mp hlt) h
      unfold flagAt at hj ⊢
      rw [stateAfter_take_succ]
      cases hk : events[j]? with
      | none => exact hj
      | some e => exact process_event_flag_mono conf ghn e _ hj
    · rw [Nat.le_antisymm hij hge] at h
      exact h

lemma workersAt_J (conf : Conf) (ghn : String → String → String)
    (events : List Event) (hmin : 1 ≤ conf.minimum_workers) : ∀ k : Nat,
    flagAt conf ghn events k = false →
    workersAt conf ghn events k < conf.minimum_workers := by
  intro k
  induction k with
  | zero =>
    intro _
    simpa [workersAt, stateAfter, initState] using hmin
  | succ k ih =>
    intro h
    unfold flagAt at h
    unfold workersAt
    rw [stateAfter_take_succ] at h ⊢
    cases hk : events[k]? with
    | none =>
      rw [hk] at h
      exact ih h
    | some e =>
      rw [hk] at h
      exact process_event_J conf ghn e _ (fun hf => ih hf) h

def conf0 : Conf :=
  ⟨"citus-master", "citus-coordinator", "citus-worker",
   "master-svc", "coordinator-svc", "worker-svc", 0, 5432⟩

def events0 : List Event := [⟨"ADDED", "citus-worker", "w1", fun _ => true⟩]

/-- Claim C2, counterexample.  With a configured minimum of 0 workers, the
Workers set size is at the threshold before any event, so no event ever makes
the size first reach the threshold — yet the flag still transitions
false→true, on the first successful worker ADDED event.  The transition at
event 0 happens although the size before that event was already at the
threshold, refuting "on exactly the event whose processing first makes the
size reach the configured minimum". -/
theorem C2_counterexample :
    flagAt conf0 ghnA events0 0 = false ∧
    flagAt conf0 ghnA events0 1 = true ∧
    ¬ workersAt conf0 ghnA events0 0 < conf0.minimum_workers := by decide

/-- Claim C2, amended: provided the configured minimum-worker threshold is at
least 1, the provisioning flag starts false, is monotone (so it transitions
false→true at most once and never reverts), a cleared flag always means the
Workers set is still below the threshold (equivalently, as soon as a prefix
of events brings the size to the threshold the flag is set), and the
transition happens exactly on an event whose processing brings the Workers
set size from below the threshold to at or above it, every earlier prefix
being below.  (With a threshold of 0 the transition instead happens on the
first successful worker ADDED event.) -/
theorem C2_provisioning_flag (conf : Conf) (ghn : String → String → String)
    (events : List Event) (hmin : 1 ≤ conf.minimum_workers) :
    flagAt conf ghn events 0 = false ∧
    (∀ i j, i ≤ j → flagAt conf ghn events i = true → flagAt conf ghn events j = true) ∧
    (∀ k, flagAt conf ghn events k = false →
       workersAt conf ghn events k < conf.minimum_workers) ∧
    (∀ i, flagAt conf ghn events i = false → flagAt conf ghn events (i + 1) = true →
       conf.minimum_workers ≤ workersAt conf ghn events (i + 1) ∧
       ∀ j, j ≤ i → workersAt conf ghn events j < conf.minimum_workers) := by
  refine ⟨rfl, flagAt_mono conf ghn events, workersAt_J conf ghn events hmin, ?_⟩
  intro i h0 h1
  constructor
  · unfold flagAt at h0 h1
    unfold workersAt
    rw [stateAfter_take_succ] at h1 ⊢
    cases hk : events[i]? with
    | none =>
      rw [hk] at h1
      rw [h1] at h0
      cases h0
    | some e =>
      rw [hk] at h1
      rcases process_event_H2 conf ghn e _ h1 with hl | hr
      · rw [hl] at h0
        cases h0
      · exact hr
  · intro j hj
    have hfj : flagAt conf ghn events j = false := by
      cases hc : flagAt conf ghn events j with
      | false => rfl
      | true =>
        rw [flagAt_mono conf ghn events j i hj hc] at h0
        cases h0
    exact workersAt_J conf ghn events hmin j hfj

def eventsC2 : List Event :=
  [⟨"ADDED", "citus-worker", "w1", fun _ => true⟩,
   ⟨"ADDED", "citus-worker", "w2", fun _ => true⟩]

/-- Claim C2, witness: threshold 2, two ready worker ADDED events. -/
theorem C2_provisioning_flag_witness :
    1 ≤ confA.minimum_workers ∧
    (flagAt confA ghnA eventsC2 0 = false ∧
     (∀ i j, i ≤ j → flagAt confA ghnA eventsC2 i = true →
        flagAt confA ghnA eventsC2 j = true) ∧
     (∀ k, flagAt confA ghnA eventsC2 k = false →
        workersAt confA ghnA eventsC2 k < confA.minimum_workers) ∧
     (∀ i, flagAt confA ghnA eventsC2 i = false →
        flagAt confA ghnA eventsC2 (i + 1) = true →
        confA.minimum_workers ≤ workersAt confA ghnA eventsC2 (i + 1) ∧
        ∀ j, j ≤ i → workersAt confA ghnA eventsC2 j < confA.minimum_workers)) :=
  ⟨by decide, C2_provisioning_flag confA ghnA eventsC2 (by decide)⟩

/-! ## Claim C8 — role sets stay pairwise disjoint under fixed roles -/

inductive Role where
  | master
  | coordinator
  | worker
  deriving DecidableEq

/-- Which handler family a `citusType` label selects, mirroring the
dict-literal lookup order of `pod_interactions` (a later equal key overwrites
an earlier one, so the worker label is tested first). -/
def roleOfLabel (conf : Conf) (citus_type : String) : Option Role :=
  if citus_type = conf.worker_label then some Role.worker
  else if citus_type = conf.coordinator_label then some Role.coordinator
  else if citus_type = conf.master_label then some Role.master
  else none

/-- The precondition of the claim: every event carries the single fixed role
of its pod. -/
def eventRoleConsistent (conf : Conf) (role : String → Role) (e : Event) : Bool :=
  match roleOfLabel conf e.citus_type with
  | some r => r == role e.pod_name
  | none => true

/-- Every set only holds identifiers of its own role. -/
def respectsRole (role : String → Role) (s : ManagerState) : Prop :=
  (∀ p ∈ s.citus_master_nodes, role p = Role.master) ∧
  (∀ p ∈ s.citus_worker_nodes, role p = Role.worker) ∧
  (∀ p ∈ s.citus_coordinator_nodes, role p = Role.coordinator)

lemma respects_add_worker (env : Env) (role : String → Role) (p : String)
    (s : ManagerState) (hp : role p = Role.worker) (h : respectsRole role s) :
    respectsRole role (add_worker env p s).state := by
  by_cases hr : env.ready p = true
  · obtain ⟨b, hb, _⟩ := add_worker_ready_state env p s hr
    rw [hb]
    refine ⟨h.1, ?_, h.2.2⟩
    intro q hq
    rcases mem_of_mem_addSet hq with h1 | h1
    · exact h.2.1 q h1
    · rw [h1]
      exact hp
  · simp only [Bool.not_eq_true] at hr
    simp only [add_worker, hr, Bool.false_eq_true, if_false]
    exact h

lemma respects_replay (env : Env) (role : String → Role) (ws : List String) :
    ∀ s : ManagerState, (∀ w ∈ ws, role w = Role.worker) →
    respectsRole role s → respectsRole role (replay_workers env ws s).state := by
  induction ws with
  | nil => intro s _ h; exact h
  | cons w ws ih =>
    intro s hws h
    simp only [replay_workers]
    by_cases hr : (add_worker env w s).raised = true
    · simp only [hr, if_true]
      rw [add_worker_raised env w s hr]
      exact h
    · simp only [Bool.not_eq_true] at hr
      simp only [hr, Bool.false_eq_true, if_false]
      exact ih _ (fun v hv => hws v (List.mem_cons_of_mem _ hv))
        (respects_add_worker env role w s (hws w (List.mem_cons_self w ws)) h)

lemma respects_add_master (env : Env) (role : String → Role) (m : String)
    (s : ManagerState) (hm : role m = Role.master) (h : respectsRole role s) :
    respectsRole role (add_master env m s).state := by
  by_cases hr : env.ready m = true
  · rw [add_master_ready_eq env m s hr]
    refine respects_replay env role _ _ (fun w hw => h.2.1 w hw) ⟨?_, h.2.1, h.2.2⟩
    intro q hq
    rcases mem_of_mem_addSet hq with h1 | h1
    · exact h.1 q h1
    · rw [h1]
      exact hm
  · simp only [Bool.not_eq_true] at hr
    simp only [add_master, hr, Bool.false_eq_true, if_false]
    exact h

lemma respects_add_coordinator (env : Env) (role : String → Role) (c : String)
    (s : ManagerState) (hc : role c = Role.coordinator) (h : respectsRole role s) :
    respectsRole role (add_coordinator env c s).state := by
  by_cases hr : env.ready c = true
  · rw [add_coordinator_ready_eq env c s hr]
    refine respects_replay env role _ _ (fun w hw => h.2.1 w hw) ⟨h.1, h.2.1, ?_⟩
    intro q hq
    rcases mem_of_mem_addSet hq with h1 | h1
    · exact h.2.2 q h1
    · rw [h1]
      exact hc
  · simp only [Bool.not_eq_true] at hr
    simp only [add_coordinator, hr, Bool.false_eq_true, if_false]
    exact h

lemma respects_remove_worker (env : Env) (role : String → Role) (p : String)
    (s : ManagerState) (h : respectsRole role s) :
    respectsRole role (remove_worker env p s).state :=
  ⟨h.1, fun q hq => h.2.1 q (mem_of_mem_discardSet hq), h.2.2⟩

lemma respects_remove_master (role : String → Role) (p : String)
    (s : ManagerState) (h : respectsRole role s) :
    respectsRole role (remove_master p s).state :=
  ⟨fun q hq => h.1 q (mem_of_mem_discardSet hq), h.2.1, h.2.2⟩

lemma respects_remove_coordinator (role : String → Role) (p : String)
    (s : ManagerState) (h : respectsRole role s) :
    respectsRole role (remove_coordinator p s).state :=
  ⟨h.1, h.2.1, fun q hq => h.2.2 q (mem_of_mem_discardSet hq)⟩

/-- `process_event_state_cases` refined with the label fact of each branch. -/
lemma process_event_state_cases_role (conf : Conf) (ghn : String → String → String)
    (e : Event) (s : ManagerState) :
    process_event_state conf ghn s e = s ∨
    (roleOfLabel conf e.citus_type = some Role.worker ∧
      (process_event_state conf ghn s e
          = (add_worker ⟨conf, ghn, e.ready⟩ e.pod_name s).state ∨
       process_event_state conf ghn s e
          = (remove_worker ⟨conf, ghn, e.ready⟩ e.pod_name s).state)) ∨
    (roleOfLabel conf e.citus_type = some Role.coordinator ∧
      (process_event_state conf ghn s e
          = (add_coordinator ⟨conf, ghn, e.ready⟩ e.pod_name s).state ∨
       process_event_state conf ghn s e = (remove_coordinator e.pod_name s).state)) ∨
    (roleOfLabel conf e.citus_type = some Role.master ∧
      (process_event_state conf ghn s e
          = (add_master ⟨conf, ghn, e.ready⟩ e.pod_name s).state ∨
       process_event_state conf ghn s e = (remove_master e.pod_name s).state)) := by
  unfold process_event_state process_event dispatch_added dispatch_deleted
  by_cases h0 : e.citus_type = ""
  · simp [h0]
  · rw [if_neg h0]
    by_cases hA : e.event_type = "ADDED"
    · rw [if_pos hA]
      by_cases hw : e.citus_type = conf.worker_label
      · refine Or.inr (Or.inl ⟨by simp only [roleOfLabel]; rw [if_pos hw], Or.inl ?_⟩)
        simp [hw]
      · rw [if_neg hw]
        by_cases hc : e.citus_type = conf.coordinator_label
        · refine Or.inr (Or.inr (Or.inl ⟨by simp only [roleOfLabel]; rw [if_neg hw, if_pos hc], Or.inl ?_⟩))
          simp [hc]
        · rw [if_neg hc]
          by_cases hm : e.citus_type = conf.master_label
          · refine Or.inr (Or.inr (Or.inr ⟨by simp only [roleOfLabel]; rw [if_neg hw, if_neg hc, if_pos hm], Or.inl ?_⟩))
            simp [hm]
          · rw [if_neg hm]
            exact Or.inl rfl
    · rw [if_neg hA]
      by_cases hD : e.event_type = "DELETED"
      · rw [if_pos hD]
        by_cases hw : e.citus_type = conf.worker_label
        · refine Or.inr (Or.inl ⟨by simp only [roleOfLabel]; rw [if_pos hw], Or.inr ?_⟩)
          simp [hw]
        · rw [if_neg hw]
          by_cases hc : e.citus_type = conf.coordinator_label
          · refine Or.inr (Or.inr (Or.inl ⟨by simp only [roleOfLabel]; rw [if_neg hw, if_pos hc], Or.inr ?_⟩))
            simp [hc]
          · rw [if_neg hc]
            by_cases hm : e.citus_type = conf.master_label
            · refine Or.inr (Or.inr (Or.inr ⟨by simp only [roleOfLabel]; rw [if_neg hw, if_neg hc, if_pos hm], Or.inr ?_⟩))
              simp [hm]
            · rw [if_neg hm]
              exact Or.inl rfl
      · rw [if_neg hD]
        exact Or.inl rfl

lemma respects_process_event (conf : Conf) (ghn : String → String → String)
    (role : String → Role) (e : Event) (s : ManagerState)
    (hc : eventRoleConsistent conf role e = true) (h : respectsRole role s) :
    respectsRole role (process_event_state conf ghn s e) := by
  rcases process_event_state_cases_role conf ghn e s with
    h0 | ⟨hr, h0⟩ | ⟨hr, h0⟩ | ⟨hr, h0⟩
  · rw [h0]
    exact h
  · have hrole : role e.pod_name = Role.worker := by
      unfold eventRoleConsistent at hc
      rw [hr] at hc
      exact (eq_of_beq hc).symm
    rcases h0 with h0 | h0 <;> rw [h0]
    · exact respects_add_worker _ role _ s hrole h
    · exact respects_remove_worker _ role _ s h
  · have hrole : role e.pod_name = Role.coordinator := by
      unfold eventRoleConsistent at hc
      rw [hr] at hc
      exact (eq_of_beq hc).symm
    rcases h0 with h0 | h0 <;> rw [h0]
    · exact respects_add_coordinator _ role _ s hrole h
    · exact respects_remove_coordinator role _ s h
  · have hrole : role e.pod_name = Role.master := by
      unfold eventRoleConsistent at hc
      rw [hr] at hc
      exact (eq_of_beq hc).symm
    rcases h0 with h0 | h0 <;> rw [h0]
    · exact respects_add_master _ role _ s hrole h
    · exact respects_remove_master role _ s h

lemma respects_stateAfter (conf : Conf) (ghn : String → String → String)
    (events : List Event) (role : String → Role)
    (h : events.all (eventRoleConsistent conf role) = true) :
    respectsRole role (stateAfter conf ghn events) := by
  suffices H : ∀ (evs : List Event) (s : ManagerState),
      evs.all (eventRoleConsistent conf role) = true →
      respectsRole role s →
      respectsRole role (evs.foldl (process_event_state conf ghn) s) by
    exact H events initState h ⟨by simp [initState], by simp [initState], by simp [initState]⟩
  intro evs
  induction evs with
  | nil => intro s _ hs; exact hs
  | cons e evs ih =>
    intro s hall hs
    rw [List.all_cons, Bool.and_eq_true] at hall
    rw [List.foldl_cons]
    exact ih _ hall.2 (respects_process_event conf ghn role e s hall.1 hs)

/-- Claim C8: when every event of the stream carries the single fixed role of
its pod, then after every prefix of the stream no identifier belongs to two
of the Masters, Workers and Coordinators sets at once. -/
theorem C8_role_sets_disjoint (conf : Conf) (ghn : String → String → String)
    (events : List Event) (role : String → Role)
    (h : events.all (eventRoleConsistent conf role) = true) :
    ∀ (k : Nat) (p : String),
      ¬ (p ∈ (stateAfter conf ghn (events.take k)).citus_master_nodes ∧
         p ∈ (stateAfter conf ghn (events.take k)).citus_worker_nodes) ∧
      ¬ (p ∈ (stateAfter conf ghn (events.take k)).citus_master_nodes ∧
         p ∈ (stateAfter conf ghn (events.take k)).citus_coordinator_nodes) ∧
      ¬ (p ∈ (stateAfter conf ghn (events.take k)).citus_worker_nodes ∧
         p ∈ (stateAfter conf ghn (events.take k)).citus_coordinator_nodes) := by
  intro k p
  have htake : (events.take k).all (eventRoleConsistent conf role) = true := by
    rw [List.all_eq_true] at h ⊢
    exact fun e he => h e (List.mem_of_mem_take he)
  obtain ⟨h1, h2, h3⟩ := respects_stateAfter conf ghn (events.take k) role htake
  refine ⟨?_, ?_, ?_⟩
  · rintro ⟨ha, hb⟩
    cases (h1 p ha).symm.trans (h2 p hb)
  · rintro ⟨ha, hb⟩
    cases (h1 p ha).symm.trans (h3 p hb)
  · rintro ⟨ha, hb⟩
    cases (h2 p ha).symm.trans (h3 p hb)

def roleW : String → Role := fun p =>
  if p = "m1" then Role.master else if p = "c1" then Role.coordinator else Role.worker

def eventsC8 : List Event :=
  [⟨"ADDED", "citus-master", "m1", fun _ => true⟩,
   ⟨"ADDED", "citus-worker", "w1", fun _ => true⟩,
   ⟨"ADDED", "citus-coordinator", "c1", fun _ => true⟩,
   ⟨"DELETED", "citus-worker", "w1", fun _ => true⟩]

/-- Claim C8, witness: a master, a worker and a coordinator each added under
their fixed role, then the worker deleted. -/
theorem C8_role_sets_disjoint_witness :
    eventsC8.all (eventRoleConsistent confA roleW) = true ∧
    ∀ (k : Nat) (p : String),
      ¬ (p ∈ (stateAfter confA ghnA (eventsC8.take k)).citus_master_nodes ∧
         p ∈ (stateAfter confA ghnA (eventsC8.take k)).citus_worker_nodes) ∧
      ¬ (p ∈ (stateAfter confA ghnA (eventsC8.take k)).citus_master_nodes ∧
         p ∈ (stateAfter confA ghnA (eventsC8.take k)).citus_coordinator_nodes) ∧
      ¬ (p ∈ (stateAfter confA ghnA (eventsC8.take k)).citus_worker_nodes ∧
         p ∈ (stateAfter confA ghnA (eventsC8.take k)).citus_coordinator_nodes) :=
  ⟨by decide, C8_role_sets_disjoint confA ghnA eventsC8 roleW (by decide)⟩

lemma retry_call_cons (c : ApiCallResult) (rest : List ApiCallResult) :
    retry_call (c :: rest) =
      match request_pod_readiness c with
      | Except.ok () => (some (Except.ok ()), 0)
      | Except.error e =>
        if retry_on_exception e then ((retry_call rest).1, wait_fixed + (retry_call rest).2)
        else (some (Except.error e), 0) := rfl

/-- Claim C1, counterexample.  The claim classifies an erroring API as
retryable and a not-ready pod as terminal; the code does the opposite.  On
the one-outcome script "the API answers with an error response" the code
raises `ReadinessError` at once while the claimed gate would still be
retrying; on the script "pod not ready, then ready" the code retries and
succeeds while the claimed gate would raise `ReadinessError`. -/
theorem C1_counterexample :
    check_pod_readiness [ApiCallResult.serverError] = GateResult.readinessError ∧
    check_pod_readiness_claim [ApiCallResult.serverError] = GateResult.stillRetrying ∧
    check_pod_readiness [ApiCallResult.status [false], ApiCallResult.status [true]]
      = GateResult.ok ∧
    check_pod_readiness_claim [ApiCallResult.status [false], ApiCallResult.status [true]]
      = GateResult.readinessError := by decide

/-- Claim C1, amended.  The retryable class of `check_pod_readiness` is every
failure that is not a `client.rest.ApiException` (the API unreachable, or the
API succeeding with some container not ready): such a failure is retried after
a fixed `wait_fixed` = 5000 ms pause and never surfaced.  An `ApiException`
(the API answering with an error, among them pod-not-found) is never retried
and is raised to the caller as `ReadinessError`. -/
theorem C1_gate_retry_classification (c : ApiCallResult) (rest : List ApiCallResult)
    (e : PyExc) (hfail : request_pod_readiness c = Except.error e) :
    (is_api_exception e = true →
      check_pod_readiness (c :: rest) = GateResult.readinessError) ∧
    (is_api_exception e = false →
      check_pod_readiness (c :: rest) = check_pod_readiness rest ∧
      (retry_call (c :: rest)).2 = wait_fixed + (retry_call rest).2) := by
  constructor
  · intro hapi
    have hrc : retry_call (c :: rest) = (some (Except.error e), 0) := by
      rw [retry_call_cons, hfail]
      simp [retry_on_exception, hapi]
    cases e with
    | apiException nf => simp [check_pod_readiness, hrc]
    | assertionError => simp [is_api_exception] at hapi
    | connectionError => simp [is_api_exception] at hapi
  · intro hnapi
    have hrc : retry_call (c :: rest)
        = ((retry_call rest).1, wait_fixed + (retry_call rest).2) := by
      rw [retry_call_cons, hfail]
      simp [retry_on_exception, hnapi]
    exact ⟨by simp [check_pod_readiness, hrc], by rw [hrc]⟩

/-- Claim C1, witness: the amended theorem applied to a transport failure
followed by a successful ready answer. -/
theorem C1_gate_retry_classification_witness :
    request_pod_readiness ApiCallResult.unreachable = Except.error PyExc.connectionError ∧
    ((is_api_exception PyExc.connectionError = true →
        check_pod_readiness [ApiCallResult.unreachable, ApiCallResult.status [true]]
          = GateResult.readinessError) ∧
      (is_api_exception PyExc.connectionError = false →
        check_pod_readiness [ApiCallResult.unreachable, ApiCallResult.status [true]]
          = check_pod_readiness [ApiCallResult.status [true]] ∧
        (retry_call [ApiCallResult.unreachable, ApiCallResult.status [true]]).2
          = wait_fixed + (retry_call [ApiCallResult.status [true]]).2)) :=
  ⟨rfl, C1_gate_retry_classification ApiCallResult.unreachable [ApiCallResult.status [true]]
    PyExc.connectionError rfl⟩

/-! ## Claim C3 — ReadinessError in a worker ADDED handler -/

/-- Claim C3: when the readiness gate raises during a worker ADDED handler,
the handler leaves the state (in particular the Workers set) exactly as it
was, emits no call at all (so no provisioning call), and the
`ReadinessError` propagates. -/
theorem C3_readiness_error_worker_added (env : Env) (pod : String) (s : ManagerState)
    (h : env.ready pod = false) :
    (add_worker env pod s).state = s ∧
    (add_worker env pod s).calls = [] ∧
    (add_worker env pod s).raised = true := by
  simp [add_worker, h]

/-- Claim C3, witness at a pod whose gate fails. -/
theorem C3_readiness_error_worker_added_witness :
    envNotReady.ready "w1" = false ∧
    ((add_worker envNotReady "w1" initState).state = initState ∧
     (add_worker envNotReady "w1" initState).calls = [] ∧
     (add_worker envNotReady "w1" initState).raised = true) :=
  ⟨rfl, C3_readiness_error_worker_added envNotReady "w1" initState rfl⟩

/-! ## Claims C5 and C6 — worker DELETED events -/

lemma remove_worker_eq (env : Env) (w : String) (s : ManagerState) :
    remove_worker env w s =
      ⟨⟨s.citus_master_nodes, discardSet s.citus_worker_nodes w,
        s.citus_coordinator_nodes, s.init_provision⟩,
       s.citus_master_nodes.map (fun master =>
         Call.execQuery master env.conf.master_service removeNodeQuery
           (env.get_host_name w env.conf.worker_service) env.conf.pg_port),
       false⟩ := rfl

/-- Claim C5, counterexample.  With one registered master and an empty
Workers set, a worker DELETED event for the absent identifier `w0` still
issues a query (the compound deregistration query against the master), so it
is not query-free as the claim states. -/
theorem C5_counterexample :
    "w0" ∉ (⟨["m1"], [], [], false⟩ : ManagerState).citus_worker_nodes ∧
    (remove_worker envA "w0" (⟨["m1"], [], [], false⟩ : ManagerState)).calls ≠ [] := by decide

/-- Claim C5, amended.  A worker DELETED event for an identifier not in the
Workers set does not raise and leaves the whole topology state unchanged, but
it still issues the compound deregistration query once per node currently in
the Masters set; it is query-free exactly when no master is registered. -/
theorem C5_deleted_absent_worker (env : Env) (w : String) (s : ManagerState)
    (h : w ∉ s.citus_worker_nodes) :
    (remove_worker env w s).raised = false ∧
    (remove_worker env w s).state = s ∧
    (remove_worker env w s).calls.length = s.citus_master_nodes.length ∧
    (s.citus_master_nodes = [] → (remove_worker env w s).calls = []) := by
  rw [remove_worker_eq, discardSet_of_not_mem h]
  refine ⟨rfl, rfl, by simp, ?_⟩
  intro hm
  simp [hm]

/-- Claim C5, witness: deleting the absent worker `w0` in a state with one
master. -/
theorem C5_deleted_absent_worker_witness :
    "w0" ∉ (⟨["m1"], [], [], false⟩ : ManagerState).citus_worker_nodes ∧
    ((remove_worker envA "w0" (⟨["m1"], [], [], false⟩ : ManagerState)).raised = false ∧
     (remove_worker envA "w0" (⟨["m1"], [], [], false⟩ : ManagerState)).state
        = (⟨["m1"], [], [], false⟩ : ManagerState) ∧
     (remove_worker envA "w0" (⟨["m1"], [], [], false⟩ : ManagerState)).calls.length
        = (⟨["m1"], [], [], false⟩ : ManagerState).citus_master_nodes.length ∧
     ((⟨["m1"], [], [], false⟩ : ManagerState).citus_master_nodes = [] →
        (remove_worker envA "w0" (⟨["m1"], [], [], false⟩ : ManagerState)).calls = [])) :=
  ⟨by decide, C5_deleted_absent_worker envA "w0" ⟨["m1"], [], [], false⟩ (by decide)⟩

/-- Claim C6: a worker DELETED event discards the worker from the Workers set
and issues exactly one compound query — delete the shard placements matching
the resolved host and port, then remove the node from the registry — per node
currently in the Masters set, each addressed to that master under the master
service scope, and nothing else: no call to any coordinator is emitted, the
other sets and the provisioning flag are untouched, and nothing is raised. -/
theorem C6_remove_worker_deregistration (env : Env) (w : String) (s : ManagerState) :
    (remove_worker env w s).state.citus_worker_nodes = discardSet s.citus_worker_nodes w ∧
    (remove_worker env w s).state.citus_master_nodes = s.citus_master_nodes ∧
    (remove_worker env w s).state.citus_coordinator_nodes = s.citus_coordinator_nodes ∧
    (remove_worker env w s).state.init_provision = s.init_provision ∧
    (remove_worker env w s).raised = false ∧
    (remove_worker env w s).calls = s.citus_master_nodes.map (fun master =>
      Call.execQuery master env.conf.master_service removeNodeQuery
        (env.get_host_name w env.conf.worker_service) env.conf.pg_port) :=
  ⟨rfl, rfl, rfl, rfl, rfl, rfl⟩

/-! ## Claim C7 — master DELETED events -/

/-- Claim C7: a master DELETED event only discards the identifier from the
Masters set; it emits no query and no provisioning call, raises nothing, and
leaves the Workers set, the Coordinators set and the provisioning flag
unchanged. -/
theorem C7_remove_master_frame (m : String) (s : ManagerState) :
    (remove_master m s).calls = [] ∧
    (remove_master m s).raised = false ∧
    (remove_master m s).state.citus_master_nodes = discardSet s.citus_master_nodes m ∧
    m ∉ (remove_master m s).state.citus_master_nodes ∧
    (remove_master m s).state.citus_worker_nodes = s.citus_worker_nodes ∧
    (remove_master m s).state.citus_coordinator_nodes = s.citus_coordinator_nodes ∧
    (remove_master m s).state.init_provision = s.init_provision :=
  ⟨rfl, rfl, rfl, not_mem_discardSet s.citus_master_nodes m, rfl, rfl, rfl⟩

end Citus
